import Mathlib

/-!
Shallow embedding of the fuelmetrics ingestion and aggregation pipeline.

The Python source operates on pandas DataFrames of string and float cells.
The embedding models a row as a record of its relevant cells, numbers as
rationals, and the outcome of `pd.to_numeric(..., errors=coerce)` as an
`Option` (`none` is NaN).  Functions are translated from
`app/services/data_processor.py`, `app/services/anp_downloader.py`,
`app/routes/today.py`, `app/routes/trend.py`, `app/utils/regions.py` and
`app/utils/column_helper.py`.
-/

namespace FuelMetrics

/-! ## Character and string helpers -/

/-- Whitespace characters recognised by the Python str.strip method and
the regex class backslash-s (space, tab, newline, carriage return,
vertical tab, form feed). -/
def isPySpace (c : Char) : Bool :=
  c = ' ' || c = '\t' || c = '\n' || c = '\r' || c = '\x0b' || c = '\x0c'

/-- Drop elements satisfying `p` from the end of a list. -/
def dropTrail (p : α → Bool) (l : List α) : List α :=
  (l.reverse.dropWhile p).reverse

/-- The Python str.strip method on a list of characters. -/
def pyStripL (l : List Char) : List Char :=
  dropTrail isPySpace (l.dropWhile isPySpace)

/-- The Python str.strip method. -/
def pyStrip (s : String) : String :=
  ⟨pyStripL s.data⟩

/-- Lookup in a finite character translation table, identity outside it. -/
def tlookup (t : List (Char × Char)) (c : Char) : Char :=
  (((t.find? (fun q => q.1 == c)).map (fun q => q.2)).getD c)

/-- Accented Latin lowercase letters and their uppercase forms (the
characters this code base can encounter; the Python str.upper method
maps each of them this way). -/
def accentUpperPairs : List (Char × Char) :=
  [('á', 'Á'), ('à', 'À'), ('â', 'Â'), ('ã', 'Ã'), ('ä', 'Ä'),
   ('é', 'É'), ('è', 'È'), ('ê', 'Ê'), ('ë', 'Ë'),
   ('í', 'Í'), ('ì', 'Ì'), ('î', 'Î'), ('ï', 'Ï'),
   ('ó', 'Ó'), ('ò', 'Ò'), ('ô', 'Ô'), ('õ', 'Õ'), ('ö', 'Ö'),
   ('ú', 'Ú'), ('ù', 'Ù'), ('û', 'Û'), ('ü', 'Ü'),
   ('ç', 'Ç'), ('ñ', 'Ñ')]

/-- Accented Latin uppercase letters and their lowercase forms (the
Python str.lower method maps each of them this way). -/
def accentLowerPairs : List (Char × Char) :=
  accentUpperPairs.map (fun q => (q.2, q.1))

/-- The Python str.upper method on one character, modelled on ASCII and
the accented Latin letters occurring in this code base; other characters
pass through. -/
def pyUpperChar (c : Char) : Char :=
  if 97 ≤ c.toNat ∧ c.toNat ≤ 122 then Char.ofNat (c.toNat - 32)
  else tlookup accentUpperPairs c

/-- The Python str.lower method on one character, same modelling scope as
`pyUpperChar`. -/
def pyLowerChar (c : Char) : Char :=
  if 65 ≤ c.toNat ∧ c.toNat ≤ 90 then Char.ofNat (c.toNat + 32)
  else tlookup accentLowerPairs c

/-- The Python str.upper method. -/
def pyUpper (s : String) : String :=
  ⟨s.data.map pyUpperChar⟩

/-- The accent table of remove_accents in app/utils/column_helper.py:
a one-to-one character replacement map (both cases), exactly as written
in the source. -/
def removeAccentPairs : List (Char × Char) :=
  [('á', 'a'), ('à', 'a'), ('â', 'a'), ('ã', 'a'), ('ä', 'a'),
   ('é', 'e'), ('è', 'e'), ('ê', 'e'), ('ë', 'e'),
   ('í', 'i'), ('ì', 'i'), ('î', 'i'), ('ï', 'i'),
   ('ó', 'o'), ('ò', 'o'), ('ô', 'o'), ('õ', 'o'), ('ö', 'o'),
   ('ú', 'u'), ('ù', 'u'), ('û', 'u'), ('ü', 'u'),
   ('ç', 'c'), ('ñ', 'n'),
   ('Á', 'A'), ('À', 'A'), ('Â', 'A'), ('Ã', 'A'), ('Ä', 'A'),
   ('É', 'E'), ('È', 'E'), ('Ê', 'E'), ('Ë', 'E'),
   ('Í', 'I'), ('Ì', 'I'), ('Î', 'I'), ('Ï', 'I'),
   ('Ó', 'O'), ('Ò', 'O'), ('Ô', 'O'), ('Õ', 'O'), ('Ö', 'O'),
   ('Ú', 'U'), ('Ù', 'U'), ('Û', 'U'), ('Ü', 'U'),
   ('Ç', 'C'), ('Ñ', 'N')]

/-- remove_accents of app/utils/column_helper.py on one character. -/
def deaccentChar (c : Char) : Char :=
  tlookup removeAccentPairs c

/-- One character of the NFKD-then-encode-ASCII-ignore step of
DataProcessor._normalize_text: an ASCII character passes through, an
accented Latin letter decomposes to its base letter (the combining mark
is discarded by the ASCII encoding), any other non-ASCII character is
discarded. -/
def nfkdAsciiChar (c : Char) : List Char :=
  if c.toNat < 128 then [c]
  else
    let d := tlookup removeAccentPairs c
    if d = c then [] else [d]

/-- DataProcessor._normalize_text: NFKD + ASCII-ignore, then the regex
removing every character outside A-Z, 0-9 and whitespace, then strip.
The input at every call site is already upper-cased, so the regex class
carries only uppercase letters, as in the source. -/
def normalize_text (s : String) : String :=
  pyStrip ⟨(s.data.flatMap nfkdAsciiChar).filter
    (fun c => decide ((65 ≤ c.toNat ∧ c.toNat ≤ 90) ∨ (48 ≤ c.toNat ∧ c.toNat ≤ 57)) || isPySpace c)⟩

/-- Decides whether `needle` occurs as a contiguous sublist of `hay`
(the Python `in` operator on strings). -/
def subList (needle : List Char) : List Char → Bool
  | [] => needle.isEmpty
  | c :: t => needle.isPrefixOf (c :: t) || subList needle t

/-- The Python `needle in hay` test on strings. -/
def strContains (hay needle : String) : Bool :=
  subList needle.data hay.data

/-- The Python str.join method with a single-space separator. -/
def joinSp : List String → String
  | [] => ""
  | [s] => s
  | s :: t :: rest => s ++ " " ++ joinSp (t :: rest)

/-! ## State and region tables (data_processor.py and regions.py) -/

/-- The `mapeamento` dictionary of `estado_para_sigla` inside
DataProcessor._clean_data (lines 96-124), in source order. -/
def mapeamento : List (String × String) :=
  [("SAO PAULO", "SP"), ("SÃO PAULO", "SP"),
   ("RIO DE JANEIRO", "RJ"),
   ("MINAS GERAIS", "MG"),
   ("ESPIRITO SANTO", "ES"), ("ESPÍRITO SANTO", "ES"),
   ("PARANA", "PR"), ("PARANÁ", "PR"),
   ("SANTA CATARINA", "SC"),
   ("RIO GRANDE DO SUL", "RS"),
   ("MATO GROSSO", "MT"),
   ("MATO GROSSO DO SUL", "MS"),
   ("GOIAS", "GO"), ("GOIÁS", "GO"),
   ("DISTRITO FEDERAL", "DF"),
   ("BAHIA", "BA"), ("BAÍA", "BA"),
   ("PERNAMBUCO", "PE"),
   ("CEARA", "CE"), ("CEARÁ", "CE"),
   ("MARANHAO", "MA"), ("MARANHÃO", "MA"),
   ("PIAUI", "PI"), ("PIAUÍ", "PI"),
   ("RIO GRANDE DO NORTE", "RN"),
   ("PARAIBA", "PB"), ("PARAÍBA", "PB"),
   ("ALAGOAS", "AL"),
   ("SERGIPE", "SE"),
   ("PARA", "PA"), ("PARÁ", "PA"),
   ("AMAZONAS", "AM"),
   ("ACRE", "AC"),
   ("RONDONIA", "RO"), ("RONDÔNIA", "RO"),
   ("RORAIMA", "RR"),
   ("AMAPA", "AP"), ("AMAPÁ", "AP"),
   ("TOCANTINS", "TO")]

/-- `estado_para_sigla` inside DataProcessor._clean_data: upper-case and
strip the input, look it up in `mapeamento`, and return the input itself
when it is not a key. -/
def estado_para_sigla (estado_nome : String) : String :=
  let e := pyStrip (pyUpper estado_nome)
  (((mapeamento.find? (fun q => q.1 == e)).map (fun q => q.2)).getD e)

/-- The `region_mapping` dictionary of `get_region_from_state_sigla`
inside DataProcessor._clean_data (lines 135-142). -/
def region_mapping_sigla : List (String × String) :=
  [("SP", "SUDESTE"), ("RJ", "SUDESTE"), ("MG", "SUDESTE"), ("ES", "SUDESTE"),
   ("PR", "SUL"), ("SC", "SUL"), ("RS", "SUL"),
   ("BA", "NORDESTE"), ("PE", "NORDESTE"), ("CE", "NORDESTE"), ("MA", "NORDESTE"),
   ("PI", "NORDESTE"), ("RN", "NORDESTE"), ("PB", "NORDESTE"), ("AL", "NORDESTE"), ("SE", "NORDESTE"),
   ("GO", "CENTRO_OESTE"), ("MT", "CENTRO_OESTE"), ("MS", "CENTRO_OESTE"), ("DF", "CENTRO_OESTE"),
   ("AM", "NORTE"), ("PA", "NORTE"), ("AC", "NORTE"), ("RO", "NORTE"), ("RR", "NORTE"), ("AP", "NORTE"), ("TO", "NORTE")]

/-- `get_region_from_state_sigla` inside DataProcessor._clean_data. -/
def get_region_from_state_sigla (sigla : String) : String :=
  let s := pyStrip (pyUpper sigla)
  (((region_mapping_sigla.find? (fun q => q.1 == s)).map (fun q => q.2)).getD "NÃO IDENTIFICADA")

/-- STATE_TO_REGION of app/utils/regions.py (27 state codes). -/
def STATE_TO_REGION : List (String × String) :=
  [("AC", "NORTE"), ("AP", "NORTE"), ("AM", "NORTE"), ("PA", "NORTE"),
   ("RO", "NORTE"), ("RR", "NORTE"), ("TO", "NORTE"),
   ("AL", "NORDESTE"), ("BA", "NORDESTE"), ("CE", "NORDESTE"), ("MA", "NORDESTE"),
   ("PB", "NORDESTE"), ("PE", "NORDESTE"), ("PI", "NORDESTE"), ("RN", "NORDESTE"), ("SE", "NORDESTE"),
   ("DF", "CENTRO-OESTE"), ("GO", "CENTRO-OESTE"), ("MT", "CENTRO-OESTE"), ("MS", "CENTRO-OESTE"),
   ("ES", "SUDESTE"), ("MG", "SUDESTE"), ("RJ", "SUDESTE"), ("SP", "SUDESTE"),
   ("PR", "SUL"), ("RS", "SUL"), ("SC", "SUL")]

/-- STATE_NAMES_TO_SIGLAS of app/utils/regions.py (27 full names, no
accent variants). -/
def STATE_NAMES_TO_SIGLAS : List (String × String) :=
  [("ACRE", "AC"), ("ALAGOAS", "AL"), ("AMAPA", "AP"), ("AMAZONAS", "AM"),
   ("BAHIA", "BA"), ("CEARA", "CE"), ("DISTRITO FEDERAL", "DF"),
   ("ESPIRITO SANTO", "ES"), ("GOIAS", "GO"), ("MARANHAO", "MA"),
   ("MATO GROSSO", "MT"), ("MATO GROSSO DO SUL", "MS"), ("MINAS GERAIS", "MG"),
   ("PARA", "PA"), ("PARAIBA", "PB"), ("PARANA", "PR"), ("PERNAMBUCO", "PE"),
   ("PIAUI", "PI"), ("RIO DE JANEIRO", "RJ"), ("RIO GRANDE DO NORTE", "RN"),
   ("RIO GRANDE DO SUL", "RS"), ("RONDONIA", "RO"), ("RORAIMA", "RR"),
   ("SANTA CATARINA", "SC"), ("SAO PAULO", "SP"), ("SERGIPE", "SE"),
   ("TOCANTINS", "TO")]

/-- normalize_state_name of app/utils/regions.py: strip and upper-case,
return the input if it is already a valid code, translate a full name,
try substring similarity in either direction, and finally return the
(normalised) input unchanged. -/
def normalize_state_name (state_input : String) : String :=
  if state_input = "" then ""
  else
    let s := pyUpper (pyStrip state_input)
    if (STATE_TO_REGION.find? (fun q => q.1 == s)).isSome then s
    else
      match (STATE_NAMES_TO_SIGLAS.find? (fun q => q.1 == s)).map (fun q => q.2) with
      | some sig => sig
      | none =>
        match (STATE_NAMES_TO_SIGLAS.find? (fun q => strContains q.1 s || strContains s q.1)).map (fun q => q.2) with
        | some sig => sig
        | none => s

/-! ## Product taxonomy (DataProcessor._clean_data) -/

/-- The `valid_products` filter list (lines 162-166). -/
def valid_products : List String :=
  ["GASOLINA", "GASOLINA COMUM", "GASOLINA ADITIVADA",
   "DIESEL", "DIESEL S10", "DIESEL S500",
   "GNV", "GAS NATURAL VEICULAR", "ETANOL", "ALCOOL"]

/-- The `product_mapping` dictionary (lines 175-189), in source order,
accented keys included. -/
def product_mapping : List (String × String) :=
  [("GASOLINA", "GASOLINA"),
   ("GASOLINA COMUM", "GASOLINA"),
   ("GASOLINA ADITIVADA", "GASOLINA"),
   ("ETANOL HIDRATADO", "ETANOL"),
   ("ETANOL", "ETANOL"),
   ("ÓLEO DIESEL", "DIESEL"),
   ("ÓLEO DIESEL S10", "DIESEL_S10"),
   ("ÓLEO_DIESEL", "DIESEL"),
   ("ÓLEO_DIESEL_S10", "DIESEL_S10"),
   ("DIESEL", "DIESEL"),
   ("DIESEL S10", "DIESEL_S10"),
   ("GNV", "GNV"),
   ("GÁS NATURAL VEICULAR", "GNV")]

/-- The per-row consolidation `product_mapping.get(x, x)` (line 192):
the raw label is retained when it is not a key of the table. -/
def consolidate (p : String) : String :=
  (((product_mapping.find? (fun q => q.1 == p)).map (fun q => q.2)).getD p)

/-! ## The cleaning pass (DataProcessor._clean_data) -/

/-- One raw row as DataProcessor receives it.  `preco` is the outcome of
pd.to_numeric on PRECO_MEDIO_REVENDA (`none` is NaN), `postos` the
outcome of pd.to_numeric followed by the int cast on
NUMERO_DE_POSTOS_PESQUISADOS; when that column is absent every row has
`postos = none`. -/
structure RawRecord where
  municipio : String
  estado : String
  produto : String
  preco : Option ℚ
  postos : Option Int
deriving DecidableEq

/-- One observation of the canonical table after cleaning. -/
structure Obs where
  municipio : String
  estado : String
  estadoSigla : String
  regiao : String
  produto : String
  produtoConsolidado : String
  preco : ℚ
  postos : Int
deriving DecidableEq

/-- The row-local part of DataProcessor._clean_data: drop rows whose
price failed coercion or is not positive, fill a missing or uncoercible
stations value with 1, upper-case and strip the string cells, strip
accents from city and product, derive the state code and the region, and
consolidate the product label.  The PRODUTO_CONSOLIDADO assignment of
line 191 is applied per row here; the source applies it after the
product filter, which is equivalent because both are row-local. -/
def cleanMunicipio (r : RawRecord) : String :=
  normalize_text (pyStrip (pyUpper r.municipio))

def cleanEstado (r : RawRecord) : String :=
  pyStrip (pyUpper r.estado)

def cleanProduto (r : RawRecord) : String :=
  pyStrip (pyUpper (normalize_text (pyStrip (pyUpper r.produto))))

def mkObs (r : RawRecord) : Option Obs :=
  match r.preco with
  | none => none
  | some p =>
    if 0 < p then
      some { municipio := cleanMunicipio r, estado := cleanEstado r,
             estadoSigla := estado_para_sigla (cleanEstado r),
             regiao := get_region_from_state_sigla (estado_para_sigla (cleanEstado r)),
             produto := cleanProduto r, produtoConsolidado := consolidate (cleanProduto r),
             preco := p, postos := r.postos.getD 1 }
    else none

/-- The cleaned rows before the final sort-and-dedup pass: row-local
cleaning followed by the `valid_products` filter (line 168). -/
def cleanRows (rows : List RawRecord) : List Obs :=
  (rows.filterMap mkObs).filter (fun o => valid_products.contains o.produto)

/-- The dedup key of line 210: (MUNICIPIO, ESTADO, PRODUTO_CONSOLIDADO). -/
def dkey (o : Obs) : String × String × String :=
  (o.municipio, o.estado, o.produtoConsolidado)

/-- Insert into a list sorted by the rational measure `f`. -/
def insertLe {α : Type} (f : α → ℚ) (x : α) : List α → List α
  | [] => [x]
  | y :: ys => if f x ≤ f y then x :: y :: ys else y :: insertLe f x ys

/-- Sort ascending by the rational measure `f` (models
DataFrame.sort_values on a numeric column; the theorems below do not
depend on the order of ties). -/
def sortLe {α : Type} (f : α → ℚ) : List α → List α
  | [] => []
  | x :: xs => insertLe f x (sortLe f xs)

/-- DataFrame.drop_duplicates with keep set to first: retain the first
row of each key, scanning left to right. -/
def dedupAux : List Obs → List (String × String × String) → List Obs
  | [], _ => []
  | o :: rest, seen =>
    if dkey o ∈ seen then dedupAux rest seen
    else o :: dedupAux rest (dkey o :: seen)

/-- DataProcessor._clean_data end to end (the canonical table): clean
and filter rows, sort by price ascending, drop duplicate keys keeping
the first (hence cheapest) row of each key (lines 207-212). -/
def clean_data (rows : List RawRecord) : List Obs :=
  dedupAux (sortLe (fun o => o.preco) (cleanRows rows)) []

/-! ## Aggregation layer -/

/-- One grouped city row: a groupby aggregate with the mean of
PRECO_MEDIO_REVENDA and the sum of NUMERO_DE_POSTOS_PESQUISADOS. -/
structure CityAgg where
  city : String
  state : String
  region : String
  preco : ℚ
  postos : Int
deriving DecidableEq

/-- Arithmetic mean over ℚ (the empty list yields 0; every use below is
on a non-empty list, as in the source). -/
def qmean (l : List ℚ) : ℚ :=
  l.sum / l.length

/-- First-occurrence deduplication with an accumulator of seen keys. -/
def firstKeysAux {κ : Type} [DecidableEq κ] : List κ → List κ → List κ
  | [], _ => []
  | k :: rest, seen =>
    if k ∈ seen then firstKeysAux rest seen
    else k :: firstKeysAux rest (k :: seen)

/-- The distinct keys of a list in order of first occurrence. -/
def firstKeys {κ : Type} [DecidableEq κ] (l : List κ) : List κ :=
  firstKeysAux l []

/-- DataFrame.groupby on a three-string key with mean price and summed
stations.  The theorems below state only order-independent facts, so the
group order (first occurrence here, key-sorted in pandas) is immaterial. -/
def groupBy (k : Obs → String × String × String) (l : List Obs) : List CityAgg :=
  (firstKeys (l.map k)).map (fun key =>
    let rows := l.filter (fun o => decide (k o = key))
    { city := key.1, state := key.2.1, region := key.2.2,
      preco := qmean (rows.map (fun o => o.preco)),
      postos := (rows.map (fun o => o.postos)).sum })

/-- The groupby key of the best-price route of app/routes/today.py,
line 113: (MUNICIPIO, ESTADO, REGIAO). -/
def gkey (o : Obs) : String × String × String :=
  (o.municipio, o.estado, o.regiao)

/-- The groupby key of DataProcessor.get_ranking, line 328:
(MUNICIPIO, ESTADO_SIGLA, REGIAO). -/
def rkey (o : Obs) : String × String × String :=
  (o.municipio, o.estadoSigla, o.regiao)

/-- The product-class filter shared by the routes and
DataProcessor.get_ranking. -/
def matchRows (rows : List Obs) (fuel : String) : List Obs :=
  rows.filter (fun o => o.produtoConsolidado == fuel)

/-- Stage 1 of the best-price reliability filter (today.py lines
97-110): rows with at least 5 surveyed stations, relaxed to 3, relaxed
to all matching rows. -/
def stagedRows (rows : List Obs) (fuel : String) : List Obs :=
  let fuelDf := matchRows rows fuel
  let s5 := fuelDf.filter (fun o => decide (5 ≤ o.postos))
  let conf := if s5.isEmpty then fuelDf.filter (fun o => decide (3 ≤ o.postos)) else s5
  if conf.isEmpty then fuelDf else conf

/-- Stage 2 of the best-price reliability filter (today.py lines
112-128): group the staged rows by city, keep groups with at least 10
total stations, relaxed to 5, relaxed to all groups. -/
def stagedGroups (rows : List Obs) (fuel : String) : List CityAgg :=
  let groups := groupBy gkey (stagedRows rows fuel)
  let g10 := groups.filter (fun g => decide (10 ≤ g.postos))
  let conf := if g10.isEmpty then groups.filter (fun g => decide (5 ≤ g.postos)) else g10
  if conf.isEmpty then groups else conf

/-- The payload built at today.py lines 141-150 (coordinates and the
constant price band omitted). -/
structure BestResult where
  price : ℚ
  city : String
  state : String
  region : String
  stations : Int
  reliability : String
deriving DecidableEq

/-- One step of the running minimum: keep the earlier row unless a
strictly cheaper one appears (Series.idxmin returns the first index
attaining the minimum). -/
def pickMinStep (b x : CityAgg) : CityAgg :=
  if x.preco < b.preco then x else b

/-- Series.idxmin: the first row attaining the minimum of `preco`. -/
def pickMin : List CityAgg → Option CityAgg
  | [] => none
  | g :: t => some (t.foldl pickMinStep g)

/-- The get_best_price route of app/routes/today.py (lines 86-150) on an
already loaded latest-week table: 404 responses are modelled as `none`. -/
def get_best_price (rows : List Obs) (fuel : String) : Option BestResult :=
  if (matchRows rows fuel).isEmpty then none
  else
    match pickMin (stagedGroups rows fuel) with
    | none => none
    | some g =>
      some { price := g.preco, city := g.city, state := g.state, region := g.region,
             stations := g.postos,
             reliability := if 10 ≤ g.postos then "high" else "medium" }

/-- DataProcessor.get_ranking (lines 313-354): filter to the fuel, group
by (MUNICIPIO, ESTADO_SIGLA, REGIAO) with mean price and summed
stations, sort ascending by price, truncate to `limit`.  No reliability
filter appears in the source.  Rank numbers and coordinates are display
fields and are omitted. -/
def get_ranking (rows : List Obs) (fuel : String) (limit : Nat) : List CityAgg :=
  (sortLe (fun g => g.preco) (groupBy rkey (matchRows rows fuel))).take limit

/-- The min builtin over a list (today.py line 353 computes
min(prices) if prices else 0). -/
def foldMin : List ℚ → Option ℚ
  | [] => none
  | x :: t => some (t.foldl min x)

/-- The max builtin over a list. -/
def foldMax : List ℚ → Option ℚ
  | [] => none
  | x :: t => some (t.foldl max x)

/-- The colour-scale computation of the get_regions_data route
(today.py lines 351-359) applied to the per-region average prices.
Python float division raises ZeroDivisionError when max equals min
(there is no guard in the source); the raised exception, which the route
turns into a 500 response, is modelled as `none`. -/
def color_indexes (avgs : List ℚ) : Option (List ℚ) :=
  let minp := (foldMin avgs).getD 0
  let maxp := (foldMax avgs).getD 1
  if maxp - minp = 0 then none
  else some (avgs.map (fun a => (a - minp) / (maxp - minp) * 100))

/-- numpy median: the middle element of the sorted list, or the mean of
the two middle elements for an even length (0 for the empty list, which
no call site reaches). -/
def qmedian (l : List ℚ) : ℚ :=
  let s := sortLe (fun x => x) l
  let n := l.length
  if n = 0 then 0
  else if n % 2 = 1 then s.getD (n / 2) 0
  else (s.getD (n / 2 - 1) 0 + s.getD (n / 2) 0) / 2

/-- _calculate_trend_indicator of app/routes/trend.py (lines 290-307).
`std` stands for np.std(prices), which involves a square root and is
passed here as a parameter of the embedding; the function only branches
on its sign and divides by it, exactly as the source does. -/
def calculate_trend_indicator (prices : List ℚ) (std : ℚ) : ℚ :=
  let skewness := if 1 < prices.length ∧ 0 < std then (qmean prices - qmedian prices) / std else 0
  max (-100) (min 100 (skewness * 50))

/-! ## Header detection (ANPDownloader.load_data, lines 196-232) -/

/-- The row signature of load_data line 199: fill missing cells with the
empty string, stringify, strip, upper-case, join with single spaces. -/
def rowSig (row : List String) : String :=
  joinSp (row.map (fun c => pyUpper (pyStrip c)))

/-- The stage-1 anchor test (line 200): the signature contains
DATA INICIAL or DATA_INICIAL. -/
def hdr1Hit (row : List String) : Bool :=
  strContains (rowSig row) "DATA INICIAL" || strContains (rowSig row) "DATA_INICIAL"

/-- The stage-2 match count (lines 210-215): one point each for a
MUNICÍPIO/MUNICIPIO, PRODUTO and ESTADO occurrence in the signature. -/
def hdr2Count (row : List String) : Nat :=
  let s := rowSig row
  (if strContains s "MUNICÍPIO" || strContains s "MUNICIPIO" then 1 else 0) +
  (if strContains s "PRODUTO" then 1 else 0) +
  (if strContains s "ESTADO" then 1 else 0)

/-- Stage 1: the first of the first 20 rows whose signature matches the
DATA INICIAL anchor. -/
def findHdr1 (grid : List (List String)) : Option Nat :=
  (grid.take 20).findIdx? hdr1Hit

/-- Stage 2: the first of the first 20 rows matching at least 2 of the
three alternative anchors. -/
def findHdr2 (grid : List (List String)) : Option Nat :=
  (grid.take 20).findIdx? (fun row => decide (2 ≤ hdr2Count row))

/-- Stage 3 (lines 221-228): scan rows 5 to 14; a row at least 10 cells
wide with a cell containing DIESEL selects the constant header offset
10.  Accessing a row index beyond the grid raises IndexError in the
source (there is no bounds guard), modelled as `Except.error`. -/
def stage3Go (grid : List (List String)) : List Nat → Except Unit (Option Nat)
  | [] => Except.ok none
  | i :: rest =>
    match grid[i]? with
    | none => Except.error ()
    | some row =>
      if 10 ≤ (row.map pyStrip).length ∧
          (row.map pyStrip).any (fun cell => strContains (pyUpper cell) "DIESEL")
      then Except.ok (some 10)
      else stage3Go grid rest

/-- The header-row search of ANPDownloader.load_data: stages 1 and 2,
then the stage-3 scan, then the unconditional default offset 10 (line
231).  `Except.error` is the IndexError a short grid produces in
stage 3; no schema error exists anywhere in the source. -/
def find_header_row (grid : List (List String)) : Except Unit Nat :=
  match findHdr1 grid with
  | some i => Except.ok i
  | none =>
    match findHdr2 grid with
    | some i => Except.ok i
    | none =>
      match stage3Go grid [5, 6, 7, 8, 9, 10, 11, 12, 13, 14] with
      | Except.error e => Except.error e
      | Except.ok (some h) => Except.ok h
      | Except.ok none => Except.ok 10

/-! ## Column-name normalization (app/utils/column_helper.py) -/

/-- The regex substitution replacing every character outside a-z, 0-9
with an underscore (line 48). -/
def subAl (c : Char) : Char :=
  if (97 ≤ c.toNat ∧ c.toNat ≤ 122) ∨ (48 ≤ c.toNat ∧ c.toNat ≤ 57) then c else '_'

/-- The regex substitution collapsing runs of underscores (line 51). -/
def collapseU : List Char → List Char
  | [] => []
  | [c] => [c]
  | a :: b :: t =>
    if a = '_' ∧ b = '_' then collapseU (b :: t)
    else a :: collapseU (b :: t)

/-- The Python str.strip method with an underscore argument (line 54). -/
def stripU (l : List Char) : List Char :=
  dropTrail (fun c => c == '_') (l.dropWhile (fun c => c == '_'))

/-- normalize_column_name of app/utils/column_helper.py: lower-case,
remove accents, replace non-alphanumerics with underscores, collapse
underscore runs, strip underscores at both ends. -/
def normalize_column_name (s : String) : String :=
  ⟨stripU (collapseU (((s.data.map pyLowerChar).map deaccentChar).map subAl))⟩

/-- The character class of normalize_column_name output: lowercase ASCII
letters, digits and the underscore. -/
def cleanCh (c : Char) : Prop :=
  (97 ≤ c.toNat ∧ c.toNat ≤ 122) ∨ (48 ≤ c.toNat ∧ c.toNat ≤ 57) ∨ c = '_'

/-! ## Concrete inputs used by the witnesses and counterexamples -/

/-- The five-class taxonomy named by the specification. -/
def spec_taxonomy : List String :=
  ["GASOLINA", "ETANOL", "DIESEL", "DIESEL_S10", "GNV"]

/-- The image of `consolidate` on `valid_products`: the consolidated
labels the cleaning pass can actually produce. -/
def consolidated_labels : List String :=
  ["GASOLINA", "ETANOL", "DIESEL", "DIESEL_S10", "GNV",
   "ALCOOL", "DIESEL S500", "GAS NATURAL VEICULAR"]

/-- Duplicate-key scenario, dearer row: same city, state and
consolidated class as `rowCheap`, price 5.00. -/
def rowDear : RawRecord :=
  { municipio := "GOIANIA", estado := "GOIAS", produto := "GASOLINA COMUM",
    preco := some 5, postos := some 12 }

/-- Duplicate-key scenario, cheaper row: price 4.80. -/
def rowCheap : RawRecord :=
  { municipio := "GOIANIA", estado := "GOIAS", produto := "GASOLINA",
    preco := some (24 / 5), postos := some 8 }

/-- A row whose product label ALCOOL passes the product filter but is
not a key of the consolidation table. -/
def rowAlcool : RawRecord :=
  { municipio := "GOIANIA", estado := "GOIAS", produto := "ALCOOL",
    preco := some 4, postos := some 7 }

/-- A row with the product label of the specification scenario; accent
stripping turns it into OLEO DIESEL S10, which the product filter
rejects. -/
def rowOleoS10 : RawRecord :=
  { municipio := "CUIABA", estado := "MT", produto := "ÓLEO DIESEL S10",
    preco := some 6, postos := some 9 }

/-- A row whose stations cell coerces to the number 0. -/
def rowZero : RawRecord :=
  { municipio := "NATAL", estado := "RN", produto := "GASOLINA",
    preco := some 6, postos := some 0 }

/-- A 15-row grid with no anchor match anywhere. -/
def grid15 : List (List String) :=
  List.replicate 15 ["X"]

/-- A well-sampled city group row (10 stations, price 5). -/
def oA : Obs :=
  { municipio := "AAA", estado := "GO", estadoSigla := "GO", regiao := "CENTRO_OESTE",
    produto := "GASOLINA", produtoConsolidado := "GASOLINA", preco := 5, postos := 10 }

/-- An under-sampled city row (1 station, price 4): cheaper, but removed
by the reliability gates of the best-price route. -/
def oB : Obs :=
  { municipio := "BBB", estado := "GO", estadoSigla := "GO", regiao := "CENTRO_OESTE",
    produto := "GASOLINA", produtoConsolidado := "GASOLINA", preco := 4, postos := 1 }

/-- The observation that cleaning `rowAlcool` produces. -/
def obsAlcool : Obs :=
  { municipio := "GOIANIA", estado := "GOIAS", estadoSigla := "GO", regiao := "CENTRO_OESTE",
    produto := "ALCOOL", produtoConsolidado := "ALCOOL", preco := 4, postos := 7 }

/-- The observation that cleaning `rowZero` produces. -/
def obsZero : Obs :=
  { municipio := "NATAL", estado := "RN", estadoSigla := "RN", regiao := "NORDESTE",
    produto := "GASOLINA", produtoConsolidado := "GASOLINA", preco := 6, postos := 0 }

/-! ## Helper lemmas: sorting -/

theorem mem_insertLe {α : Type} (f : α → ℚ) (x : α) (l : List α) (a : α) :
    a ∈ insertLe f x l ↔ a = x ∨ a ∈ l := by
  induction l with
  | nil => simp [insertLe]
  | cons y ys ih =>
    by_cases h : f x ≤ f y
    · simp [insertLe, h, List.mem_cons]
    · simp only [insertLe, if_neg h, List.mem_cons, ih]
      tauto

theorem mem_sortLe {α : Type} (f : α → ℚ) (l : List α) (a : α) :
    a ∈ sortLe f l ↔ a ∈ l := by
  induction l with
  | nil => simp [sortLe]
  | cons x xs ih => simp [sortLe, mem_insertLe, ih]

theorem pairwise_insertLe {α : Type} (f : α → ℚ) (x : α) (l : List α)
    (h : l.Pairwise (fun a b => f a ≤ f b)) :
    (insertLe f x l).Pairwise (fun a b => f a ≤ f b) := by
  induction l with
  | nil => simp [insertLe]
  | cons y ys ih =>
    rcases List.pairwise_cons.1 h with ⟨hy, hys⟩
    by_cases hxy : f x ≤ f y
    · rw [insertLe, if_pos hxy]
      refine List.pairwise_cons.2 ⟨?_, h⟩
      intro b hb
      rcases List.mem_cons.1 hb with rfl | hb
      · exact hxy
      · exact le_trans hxy (hy b hb)
    · rw [insertLe, if_neg hxy]
      refine List.pairwise_cons.2 ⟨?_, ih hys⟩
      intro b hb
      rcases (mem_insertLe f x ys b).1 hb with rfl | hb
      · exact le_of_not_le hxy
      · exact hy b hb

theorem pairwise_sortLe {α : Type} (f : α → ℚ) (l : List α) :
    (sortLe f l).Pairwise (fun a b => f a ≤ f b) := by
  induction l with
  | nil => simp [sortLe]
  | cons x xs ih => exact pairwise_insertLe f x _ ih

/-! ## Helper lemmas: deduplication -/

theorem dedup_subset :
    ∀ (l : List Obs) (seen : List (String × String × String)) (o : Obs),
      o ∈ dedupAux l seen → o ∈ l := by
  intro l
  induction l with
  | nil => intro seen o h; simp [dedupAux] at h
  | cons x t ih =>
    intro seen o h
    rw [dedupAux] at h
    split at h
    · exact List.mem_cons_of_mem x (ih _ o h)
    · rcases List.mem_cons.1 h with rfl | h
      · exact List.mem_cons_self _ _
      · exact List.mem_cons_of_mem x (ih _ o h)

theorem dedup_not_seen :
    ∀ (l : List Obs) (seen : List (String × String × String)) (o : Obs),
      o ∈ dedupAux l seen → dkey o ∉ seen := by
  intro l
  induction l with
  | nil => intro seen o h; simp [dedupAux] at h
  | cons x t ih =>
    intro seen o h
    rw [dedupAux] at h
    split at h
    · exact ih _ o h
    · rcases List.mem_cons.1 h with rfl | h
      · assumption
      · intro hmem
        exact ih _ o h (List.mem_cons_of_mem _ hmem)

theorem dedup_pairwise :
    ∀ (l : List Obs) (seen : List (String × String × String)),
      (dedupAux l seen).Pairwise (fun a b => dkey a ≠ dkey b) := by
  intro l
  induction l with
  | nil => intro seen; simp [dedupAux]
  | cons x t ih =>
    intro seen
    rw [dedupAux]
    split
    · exact ih _
    · refine List.pairwise_cons.2 ⟨?_, ih _⟩
      intro b hb hcontra
      exact dedup_not_seen t (dkey x :: seen) b hb (hcontra ▸ List.mem_cons_self _ _)

theorem dedup_covers :
    ∀ (l : List Obs) (seen : List (String × String × String)) (o2 : Obs),
      o2 ∈ l → dkey o2 ∉ seen → ∃ o ∈ dedupAux l seen, dkey o = dkey o2 := by
  intro l
  induction l with
  | nil => intro seen o2 h; simp at h
  | cons x t ih =>
    intro seen o2 h hseen
    rw [dedupAux]
    split
    · next hx =>
      rcases List.mem_cons.1 h with rfl | h
      · exact absurd hx hseen
      · exact ih seen o2 h hseen
    · next hx =>
      by_cases hk : dkey o2 = dkey x
      · exact ⟨x, List.mem_cons_self _ _, hk.symm⟩
      · rcases List.mem_cons.1 h with rfl | h
        · exact absurd rfl hk
        · have hnot : dkey o2 ∉ dkey x :: seen := by
            intro hm
            rcases List.mem_cons.1 hm with hm | hm
            · exact hk hm
            · exact hseen hm
          rcases ih (dkey x :: seen) o2 h hnot with ⟨o, ho, hko⟩
          exact ⟨o, List.mem_cons_of_mem x ho, hko⟩

theorem dedup_min :
    ∀ (l : List Obs) (seen : List (String × String × String)),
      l.Pairwise (fun a b => a.preco ≤ b.preco) →
      ∀ o ∈ dedupAux l seen, ∀ o2 ∈ l, dkey o2 = dkey o → o.preco ≤ o2.preco := by
  intro l
  induction l with
  | nil => intro seen _ o h; simp [dedupAux] at h
  | cons x t ih =>
    intro seen hp o ho o2 ho2 hk
    rcases List.pairwise_cons.1 hp with ⟨hx, ht⟩
    rw [dedupAux] at ho
    split at ho
    · next hseen =>
      rcases List.mem_cons.1 ho2 with rfl | ho2
      · exact absurd (hk ▸ hseen) (dedup_not_seen t seen o ho)
      · exact ih seen ht o ho o2 ho2 hk
    · next hseen =>
      rcases List.mem_cons.1 ho with rfl | ho
      · rcases List.mem_cons.1 ho2 with rfl | ho2
        · exact le_refl _
        · exact hx o2 ho2
      · rcases List.mem_cons.1 ho2 with rfl | ho2
        · have : dkey o ∉ dkey o2 :: seen := dedup_not_seen t _ o ho
          exact absurd (hk ▸ List.mem_cons_self (dkey o) seen) this
        · exact ih _ ht o ho o2 ho2 hk

/-! ## Helper lemmas: grouping -/

theorem firstKeysAux_covers {κ : Type} [DecidableEq κ] :
    ∀ (l seen : List κ) (k : κ), k ∈ l → k ∉ seen → k ∈ firstKeysAux l seen := by
  intro l
  induction l with
  | nil => intro seen k h; simp at h
  | cons x t ih =>
    intro seen k h hseen
    rw [firstKeysAux]
    split
    · next hx =>
      rcases List.mem_cons.1 h with rfl | h
      · exact absurd hx hseen
      · exact ih seen k h hseen
    · next hx =>
      by_cases hkx : k = x
      · exact hkx ▸ List.mem_cons_self _ _
      · rcases List.mem_cons.1 h with rfl | h
        · exact absurd rfl hkx
        · refine List.mem_cons_of_mem x (ih (x :: seen) k h ?_)
          intro hm
          rcases List.mem_cons.1 hm with hm | hm
          · exact hkx hm
          · exact hseen hm

theorem firstKeys_ne {κ : Type} [DecidableEq κ] (l : List κ) (h : l ≠ []) :
    firstKeys l ≠ [] := by
  cases l with
  | nil => exact absurd rfl h
  | cons x t => simp [firstKeys, firstKeysAux]

theorem groupBy_covers (k : Obs → String × String × String) (l : List Obs) (o : Obs)
    (ho : o ∈ l) :
    ∃ g ∈ groupBy k l, (g.city, g.state, g.region) = k o := by
  have hk : k o ∈ firstKeys (l.map k) :=
    firstKeysAux_covers (l.map k) [] (k o) (List.mem_map_of_mem k ho) (by simp)
  refine ⟨_, List.mem_map_of_mem _ hk, ?_⟩
  obtain ⟨a, b, c⟩ := k o
  rfl

theorem mem_groupBy (k : Obs → String × String × String) (l : List Obs) (g : CityAgg)
    (hg : g ∈ groupBy k l) :
    g.preco = qmean ((l.filter (fun o => decide (k o = (g.city, g.state, g.region)))).map (fun o => o.preco)) ∧
    g.postos = ((l.filter (fun o => decide (k o = (g.city, g.state, g.region)))).map (fun o => o.postos)).sum := by
  rcases List.mem_map.1 hg with ⟨key, _, hkey⟩
  obtain ⟨a, b, c⟩ := key
  subst hkey
  exact ⟨rfl, rfl⟩

theorem groupBy_ne (k : Obs → String × String × String) (l : List Obs) (h : l ≠ []) :
    groupBy k l ≠ [] := by
  have : l.map k ≠ [] := by
    cases l with
    | nil => exact absurd rfl h
    | cons x t => simp
  have h2 := firstKeys_ne (l.map k) this
  intro hc
  exact h2 (List.map_eq_nil_iff.1 hc)

/-! ## Helper lemmas: threshold relaxation and minimum picking -/

theorem relax_ne {α : Type} (base fb : List α) (h : base ≠ []) :
    (if fb.isEmpty then base else fb) ≠ [] := by
  split
  · exact h
  · next hfb =>
    intro hc
    exact hfb (by simp [hc])

theorem stagedRows_ne (rows : List Obs) (fuel : String) (h : matchRows rows fuel ≠ []) :
    stagedRows rows fuel ≠ [] :=
  relax_ne _ _ h

theorem stagedGroups_ne (rows : List Obs) (fuel : String) (h : matchRows rows fuel ≠ []) :
    stagedGroups rows fuel ≠ [] :=
  relax_ne _ _ (groupBy_ne gkey _ (stagedRows_ne rows fuel h))

theorem foldl_pick :
    ∀ (t : List CityAgg) (b : CityAgg),
      (t.foldl pickMinStep b = b ∨ t.foldl pickMinStep b ∈ t) ∧
      (t.foldl pickMinStep b).preco ≤ b.preco ∧
      ∀ x ∈ t, (t.foldl pickMinStep b).preco ≤ x.preco := by
  intro t
  induction t with
  | nil => intro b; exact ⟨Or.inl rfl, le_refl _, by simp⟩
  | cons x t' ih =>
    intro b
    rw [List.foldl_cons]
    rcases ih (pickMinStep b x) with ⟨hmem, hle, hall⟩
    by_cases hx : x.preco < b.preco
    · have hbx : pickMinStep b x = x := by rw [pickMinStep, if_pos hx]
      rw [hbx] at hmem hle hall ⊢
      refine ⟨?_, le_trans hle (le_of_lt hx), ?_⟩
      · rcases hmem with h | h
        · rw [h]; exact Or.inr (List.mem_cons_self _ _)
        · exact Or.inr (List.mem_cons_of_mem x h)
      · intro y hy
        rcases List.mem_cons.1 hy with rfl | hy
        · exact hle
        · exact hall y hy
    · have hbx : pickMinStep b x = b := by rw [pickMinStep, if_neg hx]
      rw [hbx] at hmem hle hall
      rw [hbx]
      refine ⟨?_, hle, ?_⟩
      · rcases hmem with h | h
        · exact Or.inl h
        · exact Or.inr (List.mem_cons_of_mem x h)
      · intro y hy
        rcases List.mem_cons.1 hy with rfl | hy
        · exact le_trans hle (le_of_not_lt hx)
        · exact hall y hy

theorem pickMin_some (l : List CityAgg) (h : l ≠ []) :
    ∃ g, pickMin l = some g ∧ g ∈ l ∧ ∀ x ∈ l, g.preco ≤ x.preco := by
  cases l with
  | nil => exact absurd rfl h
  | cons x t =>
    rcases foldl_pick t x with ⟨hmem, hle, hall⟩
    refine ⟨t.foldl pickMinStep x, rfl, ?_, ?_⟩
    · rcases hmem with h | h
      · rw [h]; exact List.mem_cons_self _ _
      · exact List.mem_cons_of_mem x h
    · intro y hy
      rcases List.mem_cons.1 hy with rfl | hy
      · exact hle
      · exact hall y hy

/-! ## Helper lemmas: list minimum and maximum folds -/

theorem foldl_min_le_init (t : List ℚ) : ∀ x : ℚ, t.foldl min x ≤ x := by
  induction t with
  | nil => intro x; exact le_refl x
  | cons y t' ih =>
    intro x
    rw [List.foldl_cons]
    exact le_trans (ih (min x y)) (min_le_left x y)

theorem foldl_min_le (t : List ℚ) : ∀ (x a : ℚ), a ∈ t → t.foldl min x ≤ a := by
  induction t with
  | nil => intro x a h; simp at h
  | cons y t' ih =>
    intro x a h
    rw [List.foldl_cons]
    rcases List.mem_cons.1 h with rfl | h
    · exact le_trans (foldl_min_le_init t' (min x a)) (min_le_right x a)
    · exact ih (min x y) a h

theorem le_foldl_max_init (t : List ℚ) : ∀ x : ℚ, x ≤ t.foldl max x := by
  induction t with
  | nil => intro x; exact le_refl x
  | cons y t' ih =>
    intro x
    rw [List.foldl_cons]
    exact le_trans (le_max_left x y) (ih (max x y))

theorem le_foldl_max (t : List ℚ) : ∀ (x a : ℚ), a ∈ t → a ≤ t.foldl max x := by
  induction t with
  | nil => intro x a h; simp at h
  | cons y t' ih =>
    intro x a h
    rw [List.foldl_cons]
    rcases List.mem_cons.1 h with rfl | h
    · exact le_trans (le_max_right x a) (le_foldl_max_init t' (max x a))
    · exact ih (max x y) a h

/-! ## Helper lemmas: the cleaning pipeline -/

theorem mem_cleanRows (rows : List RawRecord) (o : Obs) :
    o ∈ cleanRows rows ↔ (∃ r ∈ rows, mkObs r = some o) ∧ o.produto ∈ valid_products := by
  rw [cleanRows, List.mem_filter, List.mem_filterMap]
  constructor
  · rintro ⟨h1, h2⟩
    exact ⟨h1, by simpa using h2⟩
  · rintro ⟨h1, h2⟩
    exact ⟨h1, by simpa using h2⟩

theorem mkObs_fields (r : RawRecord) (o : Obs) (h : mkObs r = some o) :
    o.postos = r.postos.getD 1 ∧ o.produtoConsolidado = consolidate o.produto := by
  cases hp : r.preco with
  | none => rw [mkObs, hp] at h; cases h
  | some p =>
    rw [mkObs] at h
    simp only [hp] at h
    split at h
    · constructor
      · rw [← Option.some.inj h]
      · rw [← Option.some.inj h]
    · cases h

theorem mem_clean_data_cleanRows (rows : List RawRecord) (o : Obs)
    (ho : o ∈ clean_data rows) : o ∈ cleanRows rows := by
  rw [clean_data] at ho
  exact (mem_sortLe _ _ o).1 (dedup_subset _ _ o ho)

theorem stage3Go_ok_ten (grid : List (List String)) :
    ∀ (idxs : List Nat) (h10 : Nat), stage3Go grid idxs = Except.ok (some h10) → h10 = 10 := by
  intro idxs
  induction idxs with
  | nil => intro h10 h; rw [stage3Go] at h; cases h
  | cons i rest ih =>
    intro h10 h
    rw [stage3Go] at h
    cases hg : grid[i]? with
    | none =>
      simp only [hg] at h
      cases h
    | some row =>
      simp only [hg] at h
      split at h
      · injection h with h
        injection h with h
        exact h.symm
      · exact ih h10 h

section

attribute [local semireducible] Rat.add Rat.sub Rat.mul Rat.inv

/-! ## The claims -/

/-- C1: in every canonical table produced by the cleaning pass the dedup
key (city, state, consolidated product class) is unique: all retained
observations have pairwise distinct keys, every retained observation is
a cleaned row whose price is minimal among the cleaned rows sharing its
key, and every cleaned row has a representative of its key in the
table. -/
theorem C1_dedup_min (rows : List RawRecord) :
    ((clean_data rows).Pairwise (fun a b => dkey a ≠ dkey b)) ∧
    (∀ o ∈ clean_data rows, o ∈ cleanRows rows ∧
      ∀ o2 ∈ cleanRows rows, dkey o2 = dkey o → o.preco ≤ o2.preco) ∧
    (∀ o2 ∈ cleanRows rows, ∃ o ∈ clean_data rows, dkey o = dkey o2) := by
  refine ⟨by rw [clean_data]; exact dedup_pairwise _ _, ?_, ?_⟩
  · intro o ho
    refine ⟨mem_clean_data_cleanRows rows o ho, ?_⟩
    intro o2 ho2 hk
    rw [clean_data] at ho
    exact dedup_min _ [] (pairwise_sortLe _ _) o ho o2 ((mem_sortLe _ _ o2).2 ho2) hk
  · intro o2 ho2
    rw [clean_data]
    exact dedup_covers _ [] o2 ((mem_sortLe _ _ o2).2 ho2) (by simp)

/-- Witness for C1: the duplicate-key scenario with prices 5.00 and 4.80
retains only the 4.80 observation, and the theorem applies to it. -/
theorem C1_witness :
    (clean_data [rowDear, rowCheap]).map (fun o => o.preco) = [24 / 5] ∧
    (clean_data [rowDear, rowCheap]).Pairwise (fun a b => dkey a ≠ dkey b) :=
  ⟨by decide, (C1_dedup_min [rowDear, rowCheap]).1⟩

/-- C2 counterexample: a 15-row grid in which no row matches any anchor.
Header detection does not fail: it returns the guessed numeric offset
10.  No schema error exists anywhere in the source. -/
theorem C2_counterexample : find_header_row grid15 = Except.ok 10 := by
  rfl

/-- C2 amended: when no row of the scanned preamble matches the stage-1
anchor or at least 2 of the stage-2 anchors, load_data never raises a
schema error: it produces the guessed numeric header offset 10, except
that a grid shorter than 15 rows can abort the stage-3 scan with an
IndexError. -/
theorem C2_fallback_offset (grid : List (List String))
    (h1 : findHdr1 grid = none) (h2 : findHdr2 grid = none) :
    find_header_row grid = Except.ok 10 ∨ find_header_row grid = Except.error () := by
  rw [find_header_row, h1, h2]
  cases h3 : stage3Go grid [5, 6, 7, 8, 9, 10, 11, 12, 13, 14] with
  | error e => cases e; exact Or.inr rfl
  | ok o =>
    cases o with
    | none => exact Or.inl rfl
    | some hh =>
      exact Or.inl (congrArg Except.ok (stage3Go_ok_ten grid _ hh h3))

/-- Witness for C2: the anchor-free 15-row grid discharges both
hypotheses of the amended theorem. -/
theorem C2_witness :
    findHdr1 grid15 = none ∧ findHdr2 grid15 = none ∧
    (find_header_row grid15 = Except.ok 10 ∨ find_header_row grid15 = Except.error ()) :=
  ⟨by decide, by decide, C2_fallback_offset grid15 (by decide) (by decide)⟩

/-- C3: whenever the table has a row of the requested product class, the
best-price route returns a result; the result is built from a group of
the two-stage relaxed reliability pipeline, its price is minimal among
those groups, and it is tagged high reliability exactly when its total
stations are at least 10. -/
theorem C3_best_price (rows : List Obs) (fuel : String)
    (h : ∃ o ∈ rows, o.produtoConsolidado = fuel) :
    ∃ g ∈ stagedGroups rows fuel,
      get_best_price rows fuel =
        some { price := g.preco, city := g.city, state := g.state, region := g.region,
               stations := g.postos,
               reliability := if 10 ≤ g.postos then "high" else "medium" } ∧
      (∀ g2 ∈ stagedGroups rows fuel, g.preco ≤ g2.preco) ∧
      ((if 10 ≤ g.postos then "high" else "medium") = "high" ↔ 10 ≤ g.postos) := by
  have hm : matchRows rows fuel ≠ [] := by
    rcases h with ⟨o, ho, he⟩
    have : o ∈ matchRows rows fuel := by
      rw [matchRows, List.mem_filter]
      exact ⟨ho, by simp [he]⟩
    exact List.ne_nil_of_mem this
  have hie : (matchRows rows fuel).isEmpty = false := by
    cases hml : matchRows rows fuel with
    | nil => exact absurd hml hm
    | cons a t => rfl
  rcases pickMin_some (stagedGroups rows fuel) (stagedGroups_ne rows fuel hm)
    with ⟨g, hpick, hmem, hmin⟩
  refine ⟨g, hmem, ?_, hmin, ?_⟩
  · rw [get_best_price, hie, hpick]
    rfl
  · by_cases h10 : 10 ≤ g.postos
    · rw [if_pos h10]
      exact ⟨fun _ => h10, fun _ => rfl⟩
    · rw [if_neg h10]
      exact ⟨fun hc => absurd hc (by decide), fun hc => absurd hc h10⟩

/-- Witness for C3 on a concrete two-row table. -/
theorem C3_witness :
    (∃ o ∈ [oA, oB], o.produtoConsolidado = "GASOLINA") ∧
    ∃ g ∈ stagedGroups [oA, oB] "GASOLINA",
      get_best_price [oA, oB] "GASOLINA" =
        some { price := g.preco, city := g.city, state := g.state, region := g.region,
               stations := g.postos,
               reliability := if 10 ≤ g.postos then "high" else "medium" } ∧
      (∀ g2 ∈ stagedGroups [oA, oB] "GASOLINA", g.preco ≤ g2.preco) ∧
      ((if 10 ≤ g.postos then "high" else "medium") = "high" ↔ 10 ≤ g.postos) :=
  ⟨by decide, C3_best_price [oA, oB] "GASOLINA" (by decide)⟩

/-- C4 amended: every observation surviving the cleaning pass carries a
product label from the 10-entry filter list and a consolidated class
obtained by the consolidation lookup with raw-label fallback, so the
consolidated class lies in an 8-label set: the five documented classes
plus ALCOOL, DIESEL S500 and GAS NATURAL VEICULAR, which pass the filter
but are not keys of the consolidation table and are retained under their
raw labels. -/
theorem C4_consolidation (rows : List RawRecord) :
    ∀ o ∈ clean_data rows,
      o.produto ∈ valid_products ∧
      o.produtoConsolidado = consolidate o.produto ∧
      o.produtoConsolidado ∈ consolidated_labels := by
  intro o ho
  rcases (mem_cleanRows rows o).1 (mem_clean_data_cleanRows rows o ho) with ⟨⟨r, _, hr⟩, hvp⟩
  have hf := (mkObs_fields r o hr).2
  refine ⟨hvp, hf, ?_⟩
  have himg : ∀ p ∈ valid_products, consolidate p ∈ consolidated_labels := by decide
  rw [hf]
  exact himg o.produto hvp

/-- C4 counterexample: an ALCOOL row survives cleaning with consolidated
class ALCOOL, which is outside the five-class taxonomy of the claim (it
is not mapped to ETANOL); and the label of the specification scenario,
ÓLEO DIESEL S10, is accent-stripped to OLEO DIESEL S10 and dropped by
the product filter instead of being consolidated to DIESEL_S10. -/
theorem C4_counterexample :
    (clean_data [rowAlcool]).map (fun o => o.produtoConsolidado) = ["ALCOOL"] ∧
    "ALCOOL" ∉ spec_taxonomy ∧
    clean_data [rowOleoS10] = [] := by decide

/-- Witness for C4: the ALCOOL observation instantiates the amended
theorem. -/
theorem C4_witness :
    obsAlcool ∈ clean_data [rowAlcool] ∧
    (obsAlcool.produto ∈ valid_products ∧
      obsAlcool.produtoConsolidado = consolidate obsAlcool.produto ∧
      obsAlcool.produtoConsolidado ∈ consolidated_labels) :=
  ⟨by decide, C4_consolidation [rowAlcool] obsAlcool (by decide)⟩

/-- C5 counterexample: with all region averages equal the colour-index
computation does not map every region to 0; the division by
max minus min raises ZeroDivisionError (modelled as `none`, surfaced by
the route as a 500 error). -/
theorem C5_counterexample :
    color_indexes [5, 5] = none ∧ color_indexes [5, 5] ≠ some [0, 0] := by decide

/-- C5 amended: whenever the colour-index computation succeeds (max of
the region averages differs from min), every produced index lies within
[0, 100]. -/
theorem C5_color_bounds (avgs : List ℚ) (l : List ℚ) (x : ℚ)
    (hl : color_indexes avgs = some l) (hx : x ∈ l) : 0 ≤ x ∧ x ≤ 100 := by
  simp only [color_indexes] at hl
  split at hl
  · cases hl
  · next hne =>
    injection hl with hl
    subst hl
    cases avgs with
    | nil => cases hx
    | cons a0 t =>
      rcases List.mem_map.1 hx with ⟨a, ha, rfl⟩
      simp only [foldMin, foldMax, Option.getD_some] at hne ⊢
      set m := t.foldl min a0 with hm
      set M := t.foldl max a0 with hM
      have hma : m ≤ a := by
        rcases List.mem_cons.1 ha with rfl | ha
        · exact foldl_min_le_init t a
        · exact foldl_min_le t a0 a ha
      have haM : a ≤ M := by
        rcases List.mem_cons.1 ha with rfl | ha
        · exact le_foldl_max_init t a
        · exact le_foldl_max t a0 a ha
      have hlt : 0 < M - m := by
        rcases lt_or_eq_of_le (le_trans hma haM) with h | h
        · linarith
        · exact absurd (by rw [h]; ring) hne
      constructor
      · apply mul_nonneg
        · exact div_nonneg (by linarith) (le_of_lt hlt)
        · norm_num
      · have hq : (a - m) / (M - m) ≤ 1 := (div_le_one hlt).2 (by linarith)
        calc (a - m) / (M - m) * 100 ≤ 1 * 100 := by
              apply mul_le_mul_of_nonneg_right hq
              norm_num
          _ = 100 := by norm_num

/-- Witness for C5 on three distinct region averages. -/
theorem C5_witness :
    color_indexes [4, 5, 6] = some [0, 50, 100] ∧ (0 ≤ (50 : ℚ) ∧ (50 : ℚ) ≤ 100) :=
  ⟨by decide, C5_color_bounds [4, 5, 6] [0, 50, 100] 50 (by decide) (by decide)⟩

/-- C6 amended: the ranking of DataProcessor.get_ranking is the grouped
table of all matching rows (grouped by city, state code and region, with
mean price and summed stations, with no reliability filtering), sorted
ascending by averaged price and truncated to at most `limit` entries;
every matching row contributes its group to the untruncated list. -/
theorem C6_ranking (rows : List Obs) (fuel : String) (limit : Nat) :
    get_ranking rows fuel limit =
      (sortLe (fun g => g.preco) (groupBy rkey (matchRows rows fuel))).take limit ∧
    (get_ranking rows fuel limit).Pairwise (fun a b => a.preco ≤ b.preco) ∧
    (get_ranking rows fuel limit).length ≤ limit ∧
    (∀ g ∈ get_ranking rows fuel limit, g ∈ groupBy rkey (matchRows rows fuel)) ∧
    (∀ o ∈ rows, o.produtoConsolidado = fuel →
      ∃ g ∈ sortLe (fun g => g.preco) (groupBy rkey (matchRows rows fuel)),
        (g.city, g.state, g.region) = rkey o) ∧
    (∀ g ∈ groupBy rkey (matchRows rows fuel),
      g.preco = qmean (((matchRows rows fuel).filter
        (fun o => decide (rkey o = (g.city, g.state, g.region)))).map (fun o => o.preco)) ∧
      g.postos = (((matchRows rows fuel).filter
        (fun o => decide (rkey o = (g.city, g.state, g.region)))).map (fun o => o.postos)).sum) := by
  refine ⟨rfl, ?_, ?_, ?_, ?_, ?_⟩
  · exact List.Pairwise.sublist (List.take_sublist _ _) (pairwise_sortLe _ _)
  · rw [get_ranking, List.length_take]
    exact min_le_left _ _
  · intro g hg
    have : g ∈ sortLe (fun g => g.preco) (groupBy rkey (matchRows rows fuel)) :=
      (List.take_sublist _ _).subset hg
    exact (mem_sortLe _ _ g).1 this
  · intro o ho he
    have hom : o ∈ matchRows rows fuel := by
      rw [matchRows, List.mem_filter]
      exact ⟨ho, by simp [he]⟩
    rcases groupBy_covers rkey (matchRows rows fuel) o hom with ⟨g, hg, hgk⟩
    exact ⟨g, (mem_sortLe _ _ g).2 hg, hgk⟩
  · intro g hg
    exact mem_groupBy rkey (matchRows rows fuel) g hg

/-- C6 counterexample: on the two-row table, the best-price route
reports the well-sampled city AAA at price 5, while the ranking contains
the 1-station city BBB that the reliability filtering of the best-price
route removed, and even ranks it first; the grouped tables differ. -/
theorem C6_counterexample :
    get_best_price [oA, oB] "GASOLINA" =
      some { price := 5, city := "AAA", state := "GO", region := "CENTRO_OESTE",
             stations := 10, reliability := "high" } ∧
    (get_ranking [oA, oB] "GASOLINA" 10).map (fun g => (g.city, g.preco, g.postos)) =
      [("BBB", 4, 1), ("AAA", 5, 10)] ∧
    (stagedGroups [oA, oB] "GASOLINA").map (fun g => g.city) = ["AAA"] := by decide

/-- Witness for C6: instantiates the amended theorem on the concrete
table. -/
theorem C6_witness :
    (get_ranking [oA, oB] "GASOLINA" 1).length ≤ 1 ∧
    (∃ g ∈ sortLe (fun g => g.preco) (groupBy rkey (matchRows [oA, oB] "GASOLINA")),
      (g.city, g.state, g.region) = rkey oB) :=
  ⟨(C6_ranking [oA, oB] "GASOLINA" 1).2.2.1,
   (C6_ranking [oA, oB] "GASOLINA" 1).2.2.2.2.1 oB (by decide) (by decide)⟩

/-- C7: the trend indicator equals the skew proxy scaled by 50 and
clamped to [-100, 100]; it never leaves that interval, and a zero
standard deviation yields 0. -/
theorem C7_trend_clamped (prices : List ℚ) (std : ℚ) :
    (-100 ≤ calculate_trend_indicator prices std ∧ calculate_trend_indicator prices std ≤ 100) ∧
    (std = 0 → calculate_trend_indicator prices std = 0) := by
  constructor
  · constructor
    · exact le_max_left _ _
    · exact max_le (by norm_num) (min_le_left _ _)
  · intro h
    subst h
    rw [calculate_trend_indicator]
    simp only [lt_irrefl, and_false, if_false]
    norm_num

/-- Witness for C7 at a concrete price list with zero deviation. -/
theorem C7_witness :
    (-100 ≤ calculate_trend_indicator [1, 2] 0 ∧ calculate_trend_indicator [1, 2] 0 ≤ 100) ∧
    calculate_trend_indicator [1, 2] 0 = 0 :=
  ⟨(C7_trend_clamped [1, 2] 0).1, (C7_trend_clamped [1, 2] 0).2 rfl⟩

/-- C8 counterexample: an input matching no table entry is returned
unchanged by both state-name lookups, not as null: `estado_para_sigla`
returns ATLANTIS itself although the table lookup misses, and
`normalize_state_name` likewise returns its unmatched input. -/
theorem C8_counterexample :
    estado_para_sigla "ATLANTIS" = "ATLANTIS" ∧
    mapeamento.find? (fun q => q.1 == "ATLANTIS") = none ∧
    normalize_state_name "XYZLAND" = "XYZLAND" := by decide

/-- C8 amended: when the upper-cased, stripped input is not a key of the
state-name table, `estado_para_sigla` returns that input unchanged (no
exception, no null). -/
theorem C8_unmatched_identity (s : String)
    (h : mapeamento.find? (fun q => q.1 == pyStrip (pyUpper s)) = none) :
    estado_para_sigla s = pyStrip (pyUpper s) := by
  rw [estado_para_sigla]
  simp only [h, Option.map_none', Option.getD_none]

/-- Witness for C8 on a lower-case input with trailing whitespace. -/
theorem C8_witness :
    mapeamento.find? (fun q => q.1 == pyStrip (pyUpper "atlantis ")) = none ∧
    estado_para_sigla "atlantis " = pyStrip (pyUpper "atlantis ") :=
  ⟨by decide, C8_unmatched_identity "atlantis " (by decide)⟩

/-- C10 amended: every observation of the canonical table carries the
stations count of its source row with missing or uncoercible values
replaced by 1; a value that does coerce is kept as is, including 0, so
the canonical table is not guaranteed a count of at least 1. -/
theorem C10_stations_default (rows : List RawRecord) :
    ∀ o ∈ clean_data rows,
      ∃ r ∈ rows, o.postos = r.postos.getD 1 ∧ (r.postos = none → o.postos = 1) := by
  intro o ho
  rcases (mem_cleanRows rows o).1 (mem_clean_data_cleanRows rows o ho) with ⟨⟨r, hrm, hr⟩, _⟩
  have hf := (mkObs_fields r o hr).1
  refine ⟨r, hrm, hf, ?_⟩
  intro hn
  rw [hf, hn]
  rfl

/-- C10 counterexample: a row whose stations cell coerces to 0 survives
cleaning with a stations count of 0, refuting the claim that every
observation carries a count of at least 1. -/
theorem C10_counterexample :
    (clean_data [rowZero]).map (fun o => o.postos) = [0] ∧
    ¬(∀ o ∈ clean_data [rowZero], 1 ≤ o.postos) := by decide

/-- Witness for C10: the zero-stations observation instantiates the
amended theorem. -/
theorem C10_witness :
    obsZero ∈ clean_data [rowZero] ∧
    ∃ r ∈ [rowZero], obsZero.postos = r.postos.getD 1 ∧ (r.postos = none → obsZero.postos = 1) :=
  ⟨by decide, C10_stations_default [rowZero] obsZero (by decide)⟩

end

/-! ## Helper lemmas: idempotence of column-name normalization -/

theorem data_mk (l : List Char) : (String.mk l).data = l := rfl

theorem accentLower_keys : ∀ q ∈ accentLowerPairs, 127 < q.1.toNat := by decide

theorem removeAccent_keys : ∀ q ∈ removeAccentPairs, 127 < q.1.toNat := by decide

theorem tlookup_ascii (t : List (Char × Char)) (ht : ∀ q ∈ t, 127 < q.1.toNat)
    (c : Char) (hc : c.toNat < 128) : tlookup t c = c := by
  have hf : t.find? (fun q => q.1 == c) = none := by
    rw [List.find?_eq_none]
    intro q hq hbeq
    have hqc : q.1 = c := beq_iff_eq.1 hbeq
    have := ht q hq
    rw [hqc] at this
    omega
  rw [tlookup, hf]
  rfl

theorem cleanCh_ascii (c : Char) (h : cleanCh c) : c.toNat < 128 := by
  rcases h with ⟨h1, h2⟩ | ⟨h1, h2⟩ | rfl
  · omega
  · omega
  · decide

theorem subAl_clean (c : Char) : cleanCh (subAl c) := by
  rw [subAl]
  split
  · next h =>
    rcases h with h | h
    · exact Or.inl h
    · exact Or.inr (Or.inl h)
  · exact Or.inr (Or.inr rfl)

theorem subAl_id_of_clean (c : Char) (h : cleanCh c) : subAl c = c := by
  rcases h with h | h | rfl
  · rw [subAl, if_pos (Or.inl h)]
  · rw [subAl, if_pos (Or.inr h)]
  · decide

theorem pyLowerChar_id_of_clean (c : Char) (h : cleanCh c) : pyLowerChar c = c := by
  have hn : ¬(65 ≤ c.toNat ∧ c.toNat ≤ 90) := by
    rcases h with ⟨h1, h2⟩ | ⟨h1, h2⟩ | rfl
    · omega
    · omega
    · decide
  rw [pyLowerChar, if_neg hn]
  exact tlookup_ascii accentLowerPairs accentLower_keys c (cleanCh_ascii c h)

theorem deaccentChar_id_of_clean (c : Char) (h : cleanCh c) : deaccentChar c = c := by
  rw [deaccentChar]
  exact tlookup_ascii removeAccentPairs removeAccent_keys c (cleanCh_ascii c h)

theorem map_id_of_clean (f : Char → Char) (hf : ∀ c, cleanCh c → f c = c) :
    ∀ l : List Char, (∀ c ∈ l, cleanCh c) → l.map f = l := by
  intro l
  induction l with
  | nil => intro _; rfl
  | cons a t ih =>
    intro h
    rw [List.map_cons, hf a (h a (List.mem_cons_self a t)),
        ih (fun c hc => h c (List.mem_cons_of_mem a hc))]

theorem mem_collapseU : ∀ (l : List Char) (c : Char), c ∈ collapseU l → c ∈ l
  | [], c, h => by simp [collapseU] at h
  | [a], c, h => by simpa [collapseU] using h
  | a :: b :: t, c, h => by
    rw [collapseU] at h
    split at h
    · exact List.mem_cons_of_mem a (mem_collapseU (b :: t) c h)
    · rcases List.mem_cons.1 h with rfl | h2
      · exact List.mem_cons_self _ _
      · exact List.mem_cons_of_mem a (mem_collapseU (b :: t) c h2)

theorem collapseU_head : ∀ l : List Char, (collapseU l).head? = l.head?
  | [] => rfl
  | [_] => rfl
  | a :: b :: t => by
    rw [collapseU]
    split
    · next hab =>
      rw [collapseU_head (b :: t)]
      simp [hab.1, hab.2]
    · rfl

theorem collapseU_chain :
    ∀ l : List Char, List.Chain' (fun x y => ¬(x = '_' ∧ y = '_')) (collapseU l)
  | [] => by simp [collapseU]
  | [a] => by simp [collapseU]
  | a :: b :: t => by
    rw [collapseU]
    split
    · exact collapseU_chain (b :: t)
    · next hab =>
      rw [List.chain'_cons']
      refine ⟨?_, collapseU_chain (b :: t)⟩
      intro y hy
      rw [collapseU_head (b :: t)] at hy
      have hyb : b = y := by simpa using hy
      subst hyb
      exact hab

theorem collapseU_eq_self :
    ∀ l : List Char, List.Chain' (fun x y => ¬(x = '_' ∧ y = '_')) l → collapseU l = l
  | [], _ => rfl
  | [_], _ => rfl
  | a :: b :: t, h => by
    rw [collapseU, if_neg (List.chain'_cons.1 h).1,
        collapseU_eq_self (b :: t) (List.chain'_cons.1 h).2]

theorem mem_dropWhile_imp (p : Char → Bool) :
    ∀ (l : List Char) (c : Char), c ∈ l.dropWhile p → c ∈ l
  | [], _, h => h
  | a :: t, c, h => by
    rw [List.dropWhile_cons] at h
    split at h
    · exact List.mem_cons_of_mem a (mem_dropWhile_imp p t c h)
    · exact h

theorem chain'_dropWhile {R : Char → Char → Prop} (p : Char → Bool) :
    ∀ l : List Char, List.Chain' R l → List.Chain' R (l.dropWhile p)
  | [], h => h
  | a :: t, h => by
    rw [List.dropWhile_cons]
    split
    · exact chain'_dropWhile p t h.tail
    · exact h

theorem head_dropWhile_not (p : Char → Bool) :
    ∀ (l : List Char) (c : Char) (t' : List Char), l.dropWhile p = c :: t' → p c = false
  | [], c, t', h => by simp at h
  | a :: t, c, t', h => by
    rw [List.dropWhile_cons] at h
    split at h
    · exact head_dropWhile_not p t c t' h
    · next hpa =>
      injection h with h1 _
      rw [← h1]
      simpa using hpa

theorem dropWhile_eq_self_of_head (p : Char → Bool) (l : List Char)
    (h : ∀ c t', l = c :: t' → p c = false) : l.dropWhile p = l := by
  cases l with
  | nil => rfl
  | cons a t =>
    rw [List.dropWhile_cons, h a t rfl]
    simp

theorem mem_dropTrail (p : Char → Bool) (l : List Char) (c : Char)
    (h : c ∈ dropTrail p l) : c ∈ l := by
  rw [dropTrail] at h
  exact List.mem_reverse.1 (mem_dropWhile_imp p l.reverse c (List.mem_reverse.1 h))

theorem chain'_dropTrail (p : Char → Bool) (l : List Char)
    (h : List.Chain' (fun x y => ¬(x = '_' ∧ y = '_')) l) :
    List.Chain' (fun x y => ¬(x = '_' ∧ y = '_')) (dropTrail p l) := by
  have hsym : ∀ x y : Char, ¬(x = '_' ∧ y = '_') → ¬(y = '_' ∧ x = '_') :=
    fun x y hxy hc => hxy ⟨hc.2, hc.1⟩
  rw [dropTrail, List.chain'_reverse]
  exact (chain'_dropWhile p l.reverse
    (List.chain'_reverse.2 (h.imp hsym))).imp hsym

theorem dropTrail_append (p : Char → Bool) (m : List Char) :
    ∃ junk, m = dropTrail p m ++ junk := by
  refine ⟨(m.reverse.takeWhile p).reverse, ?_⟩
  rw [dropTrail]
  calc m = m.reverse.reverse := (List.reverse_reverse m).symm
    _ = (m.reverse.takeWhile p ++ m.reverse.dropWhile p).reverse := by
        rw [List.takeWhile_append_dropWhile]
    _ = (m.reverse.dropWhile p).reverse ++ (m.reverse.takeWhile p).reverse := by
        rw [List.reverse_append]

theorem mem_stripU (l : List Char) (c : Char) (h : c ∈ stripU l) : c ∈ l := by
  rw [stripU] at h
  exact mem_dropWhile_imp _ l c (mem_dropTrail _ _ c h)

theorem stripU_head_not (l : List Char) (c : Char) (t' : List Char)
    (h : stripU l = c :: t') : (c == '_') = false := by
  rw [stripU] at h
  rcases dropTrail_append (fun c => c == '_') (l.dropWhile (fun c => c == '_')) with ⟨junk, hj⟩
  rw [h] at hj
  exact head_dropWhile_not _ l c (t' ++ junk) (by simpa using hj)

theorem stripU_rev_head_not (l : List Char) (c : Char) (t' : List Char)
    (h : (stripU l).reverse = c :: t') : (c == '_') = false := by
  rw [stripU, dropTrail, List.reverse_reverse] at h
  exact head_dropWhile_not _ _ c t' h

theorem stripU_eq_self (l : List Char)
    (hhead : ∀ c t', l = c :: t' → (c == '_') = false)
    (hlast : ∀ c t', l.reverse = c :: t' → (c == '_') = false) :
    stripU l = l := by
  rw [stripU, dropWhile_eq_self_of_head _ l hhead, dropTrail,
      dropWhile_eq_self_of_head _ l.reverse hlast, List.reverse_reverse]

theorem ncn_clean (s : String) : ∀ c ∈ (normalize_column_name s).data, cleanCh c := by
  intro c hc
  have hDX : (normalize_column_name s).data
      = stripU (collapseU (((s.data.map pyLowerChar).map deaccentChar).map subAl)) := rfl
  rw [hDX] at hc
  have h1 := mem_collapseU _ c (mem_stripU _ c hc)
  rcases List.mem_map.1 h1 with ⟨y, _, rfl⟩
  exact subAl_clean y

theorem ncn_chain (s : String) :
    List.Chain' (fun x y => ¬(x = '_' ∧ y = '_')) (normalize_column_name s).data := by
  have hDX : (normalize_column_name s).data
      = stripU (collapseU (((s.data.map pyLowerChar).map deaccentChar).map subAl)) := rfl
  rw [hDX, stripU]
  exact chain'_dropTrail _ _ (chain'_dropWhile _ _ (collapseU_chain _))

/-- C9: normalize_column_name is idempotent, and the three spellings of
the city-column label (mixed-case accented, uppercase plain, lowercase
plain) all canonicalize to the same label. -/
theorem C9_canonicalize_idem :
    (∀ s : String, normalize_column_name (normalize_column_name s) = normalize_column_name s) ∧
    normalize_column_name "Município" = normalize_column_name "MUNICIPIO" ∧
    normalize_column_name "MUNICIPIO" = normalize_column_name "municipio" := by
  refine ⟨?_, by decide, by decide⟩
  intro s
  have hclean := ncn_clean s
  have hchain := ncn_chain s
  have hDX : (normalize_column_name s).data
      = stripU (collapseU (((s.data.map pyLowerChar).map deaccentChar).map subAl)) := rfl
  have hhead : ∀ c t', (normalize_column_name s).data = c :: t' → (c == '_') = false := by
    intro c t' hct
    rw [hDX] at hct
    exact stripU_head_not _ c t' hct
  have hlast : ∀ c t',
      (normalize_column_name s).data.reverse = c :: t' → (c == '_') = false := by
    intro c t' hct
    rw [hDX] at hct
    exact stripU_rev_head_not _ c t' hct
  show String.mk (stripU (collapseU ((((normalize_column_name s).data.map
      pyLowerChar).map deaccentChar).map subAl))) = normalize_column_name s
  rw [map_id_of_clean pyLowerChar pyLowerChar_id_of_clean _ hclean,
      map_id_of_clean deaccentChar deaccentChar_id_of_clean _ hclean,
      map_id_of_clean subAl subAl_id_of_clean _ hclean,
      collapseU_eq_self _ hchain,
      stripU_eq_self _ hhead hlast]

end FuelMetrics
